import Mathlib

/-!
Verification of the 2D chunk allocator / batching pipeline.

This file gives a shallow embedding, in Lean 4, of the free-list vertex
allocator (PrimitiveChunk._allocateArea / _freeArea), the buffer upload step
(PrimitiveChunk.uploadBuffer), the sprite batching predicate and fold
(SpriteRenderer._canBatch / _batchRenderElement, BatcherManager.batch), the
stencil-mask diffing step (MaskManager._processMasksDiff), the adaptive tiled
sprite division (TiledSpriteAssembler._calculateAdaptiveDividing) and the
ClearableObjectPool, and proves or refutes the specified properties of each.

JavaScript numbers that only ever hold small non-negative integers (offsets,
sizes, counts, bitmasks) are modelled as Nat; the dirty-range sentinels, which
use Number.MAX_SAFE_INTEGER / Number.MIN_SAFE_INTEGER, are modelled as Int;
quantities compared against an epsilon in floating point are modelled as Rat
(the branch structure under scrutiny only uses ordered-field comparisons).
-/

namespace Engine2D

/-- One contiguous free region of a chunk's vertex array, in float-element
units, mirroring the Area class of PrimitiveChunk. -/
structure Area where
  start : Nat
  size : Nat
deriving DecidableEq, Repr

/-- Shallow embedding of PrimitiveChunk._allocateArea, pool bookkeeping
omitted (the list contents do not depend on it; see allocPooledLoop for the
pool-tracking variant).  Scans the free areas in list order; the first area
with size greater than the request is shrunk in place (start advances, size
decreases) and a fresh Area of the requested size at the old start is
returned; an exact-size match is removed from the list and returned.  Returns
none when no area fits; the source mutates nothing on that path, so the
caller's list is unchanged. -/
def allocateArea (need : Nat) : List Area → Option (Area × List Area)
  | [] => none
  | a :: rest =>
    if need < a.size then
      some (⟨a.start, need⟩, ⟨a.start + need, a.size - need⟩ :: rest)
    else if a.size = need then
      some (a, rest)
    else
      match allocateArea need rest with
      | some (r, rest') => some (r, a :: rest')
      | none => none

/-- Loop body of PrimitiveChunk._freeArea.  `pre` plays the role of preArea
(initially the freed area), `notMerge` the notMerge flag; the list argument is
the suffix of vertexFreeAreas not yet visited.  In the source, merge branches
mutate the current list element in place and rebind preArea to it; this is
value-faithful here because later iterations only rewrite later elements.
The final `i + 1 === areaLen && areas.push(preArea)` of the source appends
preArea after the captured loop bound, hence the `[cur, pre]` case. -/
def freeLoop (pre : Area) (notMerge : Bool) : List Area → List Area
  | [] => []
  | cur :: rest =>
    let preEnd := pre.start + pre.size
    let curEnd := cur.start + cur.size
    if preEnd < cur.start then
      if notMerge then pre :: cur :: rest else cur :: rest
    else if preEnd = cur.start then
      let m : Area := ⟨pre.start, cur.size + pre.size⟩
      m :: freeLoop m false rest
    else if pre.start = curEnd then
      let m : Area := ⟨cur.start, cur.size + pre.size⟩
      m :: freeLoop m false rest
    else if curEnd < pre.start then
      match rest with
      | [] => [cur, pre]
      | _ :: _ => cur :: freeLoop pre notMerge rest
    else
      cur :: freeLoop pre notMerge rest

/-- Shallow embedding of PrimitiveChunk._freeArea: an empty list receives the
freed area directly; otherwise the merge loop runs over the whole list. -/
def freeArea (areas : List Area) (a : Area) : List Area :=
  match areas with
  | [] => [a]
  | _ :: _ => freeLoop a true areas

/-- The free-list invariant stated by the spec: sorted by start,
non-overlapping, and no two areas address-adjacent — equivalently, every
consecutive pair satisfies a.start + a.size < b.start. -/
def wellFormed : List Area → Bool
  | [] => true
  | [_] => true
  | a :: b :: rest => decide (a.start + a.size < b.start) && wellFormed (b :: rest)

/-- An Area object with an identity, for tracking reference-level flow
between the free list, the caller and the manager's areaPool. -/
structure AreaObj where
  oid : Nat
  start : Nat
  size : Nat
deriving DecidableEq, Repr

/-- Modelled from the spec: ReturnableObjectPool (the manager's areaPool),
whose source is not in the reviewed tree.  Per the spec's design note the
pool is an arena with get/return: `return x` makes the object x available
for checkout again; `get` hands out an available object, or a fresh one
(identified here by freshId) when none is available.  The pool state is the
stack of objects currently available for checkout. -/
def poolGet (pool : List AreaObj) (freshId : Nat) : AreaObj × List AreaObj :=
  match pool with
  | p :: rest => (p, rest)
  | [] => (⟨freshId, 0, 0⟩, [])

/-- Shallow embedding of PrimitiveChunk._allocateArea with the areaPool
interactions kept.  Result: (object handed to the caller, new free list, new
pool-available stack).  The split branch draws newArea from the pool and sets
its fields; the exact-match branch splices the area out of the list, calls
pool.return(area) — pushing the very object onto the available stack — and
then returns that same object to the caller. -/
def allocPooledLoop (need : Nat) (pool : List AreaObj) (freshId : Nat) :
    List AreaObj → Option (AreaObj × List AreaObj × List AreaObj)
  | [] => none
  | a :: rest =>
    if need < a.size then
      let got := poolGet pool freshId
      some (⟨got.1.oid, a.start, need⟩, ⟨a.oid, a.start + need, a.size - need⟩ :: rest, got.2)
    else if a.size = need then
      some (a, rest, a :: pool)
    else
      match allocPooledLoop need pool freshId rest with
      | some (r, rest', pool') => some (r, a :: rest', pool')
      | none => none

end Engine2D

namespace Engine2D

/-- Skipping a head run of too-small areas: _allocateArea leaves them in
place and recurses past them. -/
theorem allocateArea_skip (need : Nat) (px l : List Area)
    (hsmall : ∀ b ∈ px, b.size < need) :
    allocateArea need (px ++ l) =
      (allocateArea need l).map (fun r => (r.1, px ++ r.2)) := by
  induction px with
  | nil =>
    cases hl : allocateArea need l with
    | none => simp [hl]
    | some r => simp [hl]
  | cons a px ih =>
    have ha := hsmall a (List.mem_cons_self a px)
    have h1 : ¬ need < a.size := by omega
    have h2 : ¬ a.size = need := by omega
    simp only [List.cons_append, allocateArea, if_neg h1, if_neg h2, List.append_eq]
    rw [ih (fun b hb => hsmall b (List.mem_cons_of_mem a hb))]
    cases allocateArea need l with
    | none => rfl
    | some r => rfl

/-- _allocateArea returns none when every area is too small. -/
theorem allocateArea_exhausted (need : Nat) (areas : List Area)
    (h : ∀ b ∈ areas, b.size < need) : allocateArea need areas = none := by
  induction areas with
  | nil => rfl
  | cons a rest ih =>
    have ha := h a (List.mem_cons_self a rest)
    have h1 : ¬ need < a.size := by omega
    have h2 : ¬ a.size = need := by omega
    simp only [allocateArea, if_neg h1, if_neg h2]
    rw [ih (fun b hb => h b (List.mem_cons_of_mem a hb))]

end Engine2D

namespace Engine2D

/-- C1.  The free-list invariant does NOT survive every _freeArea step: on a
chunk of capacity 27, allocating three 9-element regions (emptying the free
list) and then freeing them in the order first, third, second makes the last
free adjacent to both existing areas at once; the loop merges the freed area
backward into the first area and then merges that first area forward into the
second without removing it, leaving the overlapping list
[(0,18), (0,27)], which violates sortedness/non-overlap/non-adjacency. -/
theorem freeArea_double_adjacent_breaks_invariant :
    allocateArea 9 [⟨0, 27⟩] = some (⟨0, 9⟩, [⟨9, 18⟩]) ∧
    allocateArea 9 [⟨9, 18⟩] = some (⟨9, 9⟩, [⟨18, 9⟩]) ∧
    allocateArea 9 [⟨18, 9⟩] = some (⟨18, 9⟩, []) ∧
    freeArea (freeArea (freeArea [] ⟨0, 9⟩) ⟨18, 9⟩) ⟨9, 9⟩ =
      [⟨0, 18⟩, ⟨0, 27⟩] ∧
    wellFormed [⟨0, 18⟩, ⟨0, 27⟩] = false := by
  refine ⟨rfl, rfl, rfl, rfl, rfl⟩

/-- C2.  Round-trip allocate/free fails for some permutation of the free
order: after allocating three 9-element regions from a capacity-27 chunk and
freeing them in the order first, third, second, the free list is
[(0,18), (0,27)] rather than the single full area (0,27) — full coalescing
does not hold for every permutation. -/
theorem roundTrip_free_permutation_fails :
    allocateArea 9 [⟨0, 27⟩] = some (⟨0, 9⟩, [⟨9, 18⟩]) ∧
    allocateArea 9 [⟨9, 18⟩] = some (⟨9, 9⟩, [⟨18, 9⟩]) ∧
    allocateArea 9 [⟨18, 9⟩] = some (⟨18, 9⟩, []) ∧
    freeArea (freeArea (freeArea [] ⟨0, 9⟩) ⟨18, 9⟩) ⟨9, 9⟩ ≠
      [(⟨0, 27⟩ : Area)] := by
  refine ⟨rfl, rfl, rfl, by decide⟩

/-- C6.  First-fit allocation: with every area before position i too small,
the area at i is split in place when strictly larger than the request (the
returned area sits at its old start, the remaining area advances by the
request), or removed and returned on an exact size match; and when every
area is too small the result is none (the embedding returns the input list
untouched on that path, as the source mutates nothing before returning
null). -/
theorem allocateArea_first_fit (px sx areas : List Area) (a : Area)
    (need : Nat) (hsmall : ∀ b ∈ px, b.size < need)
    (hall : ∀ b ∈ areas, b.size < need) :
    (need < a.size →
      allocateArea need (px ++ a :: sx) =
        some (⟨a.start, need⟩, px ++ ⟨a.start + need, a.size - need⟩ :: sx)) ∧
    (a.size = need →
      allocateArea need (px ++ a :: sx) = some (a, px ++ sx)) ∧
    allocateArea need areas = none := by
  refine ⟨fun hbig => ?_, fun hexact => ?_, allocateArea_exhausted need areas hall⟩
  · rw [allocateArea_skip need px (a :: sx) hsmall]
    simp only [allocateArea, if_pos hbig]
    rfl
  · have h1 : ¬ need < a.size := by omega
    rw [allocateArea_skip need px (a :: sx) hsmall]
    simp only [allocateArea, if_neg h1, if_pos hexact]
    rfl

/-- Witness for C6 at concrete inputs: request 5 against [(0,3), (3,10),
(20,4)] splits the second area; against [(0,2)] it fails. -/
theorem allocateArea_first_fit_witness :
    allocateArea 5 [⟨0, 3⟩, ⟨3, 10⟩, ⟨20, 4⟩] =
      some (⟨3, 5⟩, [⟨0, 3⟩, ⟨8, 5⟩, ⟨20, 4⟩]) ∧
    allocateArea 5 [⟨0, 2⟩] = none := by
  have h := allocateArea_first_fit [⟨0, 3⟩] [⟨20, 4⟩] [⟨0, 2⟩] ⟨3, 10⟩ 5
    (by decide) (by decide)
  exact ⟨h.1 (by decide), h.2.2⟩

/-- C8.  Pool checkout exclusivity fails on the exact-size-match path: with
free list [(oid 7, 0, 9)] and an empty pool, allocating exactly 9 returns the
Area object with oid 7 to the caller AND pushes that same object onto the
areaPool's available stack, so the very next poolGet hands the leased object
out again. -/
theorem allocateArea_exact_match_double_checkout :
    allocPooledLoop 9 [] 100 [⟨7, 0, 9⟩] =
      some (⟨7, 0, 9⟩, [], [⟨7, 0, 9⟩]) ∧
    (poolGet [⟨7, 0, 9⟩] 100).1 = ⟨7, 0, 9⟩ := by
  refine ⟨rfl, rfl⟩

end Engine2D

namespace Engine2D

/-- Number.MAX_SAFE_INTEGER, the empty-interval sentinel for the dirty-range
start. -/
def maxSafeInteger : Int := 2 ^ 53 - 1

/-- Number.MIN_SAFE_INTEGER, the empty-interval sentinel for the dirty-range
length. -/
def minSafeInteger : Int := -(2 ^ 53 - 1)

/-- The dirty-tracking state of a PrimitiveChunk: updateVertexStart,
updateVertexLength (sentinel-valued) and updateIndexLength. -/
structure ChunkDirty where
  updateVertexStart : Int
  updateVertexLength : Int
  updateIndexLength : Nat
deriving DecidableEq, Repr

/-- Which GPU buffer a setData call targets. -/
inductive TargetBuffer where
  | vertex
  | index
deriving DecidableEq, Repr

/-- One buffer.setData(data, bufferByteOffset, dataOffset, dataLength,
option) call, with discard = true standing for SetDataOptions.Discard. -/
structure SetDataCall where
  target : TargetBuffer
  bufferByteOffset : Int
  dataOffset : Int
  dataLength : Int
  discard : Bool
deriving DecidableEq, Repr

/-- The source's guard in uploadBuffer: some vertex write moved the
sentinels (updateVertexStart !== MAX_SAFE_INTEGER and updateVertexLength !==
MIN_SAFE_INTEGER). -/
def vertexDirty (s : ChunkDirty) : Prop :=
  s.updateVertexStart ≠ maxSafeInteger ∧ s.updateVertexLength ≠ minSafeInteger

instance (s : ChunkDirty) : Decidable (vertexDirty s) := by
  unfold vertexDirty
  infer_instance

/-- Shallow embedding of PrimitiveChunk.uploadBuffer: under the sentinel
guard, upload vertices at byte offset updateVertexStart * 4, data offset
updateVertexStart, length updateVertexLength with Discard, then reset the
sentinel pair; in all cases upload indices over [0, updateIndexLength) with
Discard and zero updateIndexLength.  Returns the emitted setData calls in
order together with the new state. -/
def uploadBuffer (s : ChunkDirty) : List SetDataCall × ChunkDirty :=
  if vertexDirty s then
    ([⟨TargetBuffer.vertex, s.updateVertexStart * 4, s.updateVertexStart,
        s.updateVertexLength, true⟩,
      ⟨TargetBuffer.index, 0, 0, (s.updateIndexLength : Int), true⟩],
     ⟨maxSafeInteger, minSafeInteger, 0⟩)
  else
    ([⟨TargetBuffer.index, 0, 0, (s.updateIndexLength : Int), true⟩],
     ⟨s.updateVertexStart, s.updateVertexLength, 0⟩)

/-- C7.  uploadBuffer uploads the vertex buffer iff the sentinels were
widened; when it does, the single vertex upload covers exactly the spanning
dirty range with Discard and the sentinels are reset to MAX/MIN; otherwise no
vertex upload happens and the sentinels are untouched; in every case the one
index upload covers [0, updateIndexLength) with Discard and the length is
reset to 0. -/
theorem uploadBuffer_spec (s : ChunkDirty) :
    ((∃ c ∈ (uploadBuffer s).1, c.target = TargetBuffer.vertex) ↔ vertexDirty s) ∧
    (vertexDirty s →
      (uploadBuffer s).1 =
        [⟨TargetBuffer.vertex, s.updateVertexStart * 4, s.updateVertexStart,
           s.updateVertexLength, true⟩,
         ⟨TargetBuffer.index, 0, 0, (s.updateIndexLength : Int), true⟩] ∧
      (uploadBuffer s).2.updateVertexStart = maxSafeInteger ∧
      (uploadBuffer s).2.updateVertexLength = minSafeInteger) ∧
    (¬ vertexDirty s →
      (uploadBuffer s).1 =
        [⟨TargetBuffer.index, 0, 0, (s.updateIndexLength : Int), true⟩] ∧
      (uploadBuffer s).2.updateVertexStart = s.updateVertexStart ∧
      (uploadBuffer s).2.updateVertexLength = s.updateVertexLength) ∧
    (⟨TargetBuffer.index, 0, 0, (s.updateIndexLength : Int), true⟩ ∈
      (uploadBuffer s).1) ∧
    (uploadBuffer s).2.updateIndexLength = 0 := by
  by_cases h : vertexDirty s
  · simp [uploadBuffer, h]
  · simp [uploadBuffer, h]

/-- Witness for C7 at a concrete dirty state: start 2, length 5, index
length 7. -/
theorem uploadBuffer_spec_witness :
    (uploadBuffer ⟨2, 5, 7⟩).1 =
      [⟨TargetBuffer.vertex, 8, 2, 5, true⟩,
       ⟨TargetBuffer.index, 0, 0, 7, true⟩] ∧
    (uploadBuffer ⟨2, 5, 7⟩).2.updateIndexLength = 0 := by
  have h := uploadBuffer_spec ⟨2, 5, 7⟩
  exact ⟨(h.2.1 (by decide)).1, h.2.2.2.2⟩

end Engine2D

namespace Engine2D

/-- Stencil operations emitted by MaskManager for mask clones. -/
inductive StencilOperation where
  | incrementSaturate
  | decrementSaturate
deriving DecidableEq, Repr

/-- JS 32-bit bitwise AND (a & b) for the non-negative bitmask range,
computed bit by bit over 32 positions so that it reduces in the kernel. -/
def bitAndAux : Nat → Nat → Nat → Nat
  | 0, _, _ => 0
  | fuel + 1, m, n =>
    (if m % 2 = 1 ∧ n % 2 = 1 then 1 else 0) + 2 * bitAndAux fuel (m / 2) (n / 2)

/-- JS 32-bit (a & b). -/
def jsAnd (m n : Nat) : Nat := bitAndAux 32 m n

/-- JS 32-bit (a & ~b): the bits of a not in b, computed bit by bit. -/
def bitDiffAux : Nat → Nat → Nat → Nat
  | 0, _, _ => 0
  | fuel + 1, m, n =>
    (if m % 2 = 1 ∧ n % 2 = 0 then 1 else 0) + 2 * bitDiffAux fuel (m / 2) (n / 2)

/-- JS 32-bit (a & ~b). -/
def jsAndNot (m n : Nat) : Nat := bitDiffAux 32 m n

/-- Per-mask body of MaskManager._processMasksDiff (reached only when
preMaskLayer differs from curMaskLayer): check the mask's influenceLayers
against the common set (skip), then the add set (emit an increment-saturate
clone and continue to the next mask), then the reduce set (emit a
decrement-saturate clone).  commonLayer = pre & cur, addLayer = cur & ~pre,
reduceLayer = pre & ~cur, and a JS `if (x)` on an integer tests x ≠ 0. -/
def maskStencilOps (preMaskLayer curMaskLayer influenceLayers : Nat) :
    List StencilOperation :=
  let commonLayer := jsAnd preMaskLayer curMaskLayer
  let addLayer := jsAndNot curMaskLayer preMaskLayer
  let reduceLayer := jsAndNot preMaskLayer curMaskLayer
  if jsAnd influenceLayers commonLayer ≠ 0 then []
  else if jsAnd influenceLayers addLayer ≠ 0 then
    [StencilOperation.incrementSaturate]
  else if jsAnd influenceLayers reduceLayer ≠ 0 then
    [StencilOperation.decrementSaturate]
  else []

/-- The mask-layer transition step of MaskManager._processMasksDiff: when
the layers differ, every known mask contributes its clones in order; the
step's output is the ordered list of emitted stencil operations. -/
def processMasksDiff (preMaskLayer curMaskLayer : Nat) (masks : List Nat) :
    List StencilOperation :=
  if preMaskLayer = curMaskLayer then []
  else (masks.map (maskStencilOps preMaskLayer curMaskLayer)).flatten

/-- C5 counterexample.  Transition preMaskLayer = 1 to curMaskLayer = 2 with
one mask of influenceLayers = 3: the mask intersects the add set (bit 1) and
the reduce set (bit 0) and not the common set (empty), yet the step emits
only the increment-saturate clone — the add branch's continue skips the
reduce check, so no decrement-saturate clone accompanies it as the claim
requires. -/
theorem processMasksDiff_checks_not_independent :
    jsAnd 3 (jsAndNot 2 1) ≠ 0 ∧
    jsAnd 3 (jsAndNot 1 2) ≠ 0 ∧
    jsAnd 3 (jsAnd 1 2) = 0 ∧
    processMasksDiff 1 2 [3] = [StencilOperation.incrementSaturate] ∧
    StencilOperation.decrementSaturate ∉ processMasksDiff 1 2 [3] := by
  decide

/-- C5 amended.  The three per-mask checks are sequential with early exit:
for a mask whose influenceLayers misses the common set but intersects both
the add and the reduce sets, the transition step emits exactly one
increment-saturate clone for it and no decrement-saturate clone. -/
theorem processMasksDiff_add_takes_priority
    (preMaskLayer curMaskLayer influenceLayers : Nat)
    (hne : preMaskLayer ≠ curMaskLayer)
    (hcommon : jsAnd influenceLayers (jsAnd preMaskLayer curMaskLayer) = 0)
    (hadd : jsAnd influenceLayers (jsAndNot curMaskLayer preMaskLayer) ≠ 0) :
    processMasksDiff preMaskLayer curMaskLayer [influenceLayers] =
      [StencilOperation.incrementSaturate] := by
  simp [processMasksDiff, maskStencilOps, hne, hcommon, hadd]

/-- Witness for the amended C5 at preMaskLayer 1, curMaskLayer 2,
influenceLayers 3. -/
theorem processMasksDiff_add_takes_priority_witness :
    processMasksDiff 1 2 [3] = [StencilOperation.incrementSaturate] :=
  processMasksDiff_add_takes_priority 1 2 3 (by decide) (by decide)
    (by decide)

end Engine2D

namespace Engine2D

/-- The TiledType enum of TiledSpriteAssembler. -/
inductive TiledType where
  | compressed
  | withoutTiled
  | withTiled
deriving DecidableEq, Repr

/-- MathUtil.zeroTolerance (1e-6). -/
def zeroTolerance : ℚ := 1 / 1000000

/-- The adaptive repeat-count rounding of _calculateAdaptiveDividing:
rRepeatCount % 1 >= threshold picks Math.ceil, otherwise Math.floor. -/
def adaptiveRepeatCount (x threshold : ℚ) : ℤ :=
  if x - ⌊x⌋ ≥ threshold then ⌈x⌉ else ⌊x⌋

/-- Result of one axis of _calculateAdaptiveDividing's division selection:
the chosen TiledType, the vertex count for the axis, the scale factor later
used by the corresponding switch case (none in the WithoutTiled case, which
divides by nothing), and the repeat count (computed only in the WithTiled
case, the only place the code divides by the center dimension). -/
structure AxisDivision where
  tType : TiledType
  vertCount : ℤ
  scale : Option ℚ
  repeatCount : Option ℤ
deriving DecidableEq, Repr

/-- Shallow embedding of the row-axis division selection of
TiledSpriteAssembler._calculateAdaptiveDividing (the column axis is the
identical computation applied to height, fixedTB and fixedCH).  The source
divides by the center width fixedCW only inside the branch guarded by
fixedCW > zeroTolerance; the fixedLR >= width branch selects the 3-vertex
Compressed case whose switch arm uses scale = width / fixedLR. -/
def calculateAdaptiveAxis (width fixedLR fixedCW threshold : ℚ) : AxisDivision :=
  if fixedLR ≥ width then
    { tType := TiledType.compressed, vertCount := 3,
      scale := some (width / fixedLR), repeatCount := none }
  else if fixedCW > zeroTolerance then
    let r := adaptiveRepeatCount ((width - fixedLR) / fixedCW) threshold
    { tType := TiledType.withTiled, vertCount := 4 + r - 1,
      scale := some (width / (fixedLR + (r : ℚ) * fixedCW)),
      repeatCount := some r }
  else
    { tType := TiledType.withoutTiled, vertCount := 4,
      scale := none, repeatCount := none }

/-- C9.  The division by the center dimension happens only in the WithTiled
branch (the only branch computing a repeatCount), which is entered only under
the guard fixedCW > zeroTolerance; and whenever fixedLR >= width the axis
takes the 3-vertex Compressed case with scale width / fixedLR — never a
tiled division — so a near-zero center dimension is never divided by. -/
theorem adaptiveDividing_division_guarded (width fixedLR fixedCW threshold : ℚ) :
    ((calculateAdaptiveAxis width fixedLR fixedCW threshold).repeatCount ≠ none →
      fixedCW > zeroTolerance) ∧
    ((calculateAdaptiveAxis width fixedLR fixedCW threshold).tType =
        TiledType.withTiled →
      fixedCW > zeroTolerance) ∧
    (fixedLR ≥ width →
      calculateAdaptiveAxis width fixedLR fixedCW threshold =
        { tType := TiledType.compressed, vertCount := 3,
          scale := some (width / fixedLR), repeatCount := none }) ∧
    (fixedCW ≤ zeroTolerance →
      (calculateAdaptiveAxis width fixedLR fixedCW threshold).tType ≠
          TiledType.withTiled ∧
      (calculateAdaptiveAxis width fixedLR fixedCW threshold).repeatCount =
          none) := by
  by_cases h1 : fixedLR ≥ width
  · simp [calculateAdaptiveAxis, h1]
  · by_cases h2 : fixedCW > zeroTolerance
    · constructor
      · intro _
        exact h2
      · refine ⟨fun _ => h2, fun hw => absurd hw h1, fun hle => absurd h2 (not_lt.mpr hle)⟩
    · simp [calculateAdaptiveAxis, h1, h2]

/-- Witness for C9: a 2-wide sprite whose borders total 4 exceed the target
width, with a zero center width; the axis compresses with scale 2/4. -/
theorem adaptiveDividing_division_guarded_witness :
    calculateAdaptiveAxis 2 4 0 (1 / 2) =
      { tType := TiledType.compressed, vertCount := 3,
        scale := some (2 / 4), repeatCount := none } ∧
    (calculateAdaptiveAxis 2 4 0 (1 / 2)).tType ≠ TiledType.withTiled := by
  have h := adaptiveDividing_division_guarded 2 4 0 (1 / 2)
  exact ⟨h.2.2.1 (by norm_num), (h.2.2.2 (by norm_num [zeroTolerance])).1⟩

end Engine2D

namespace Engine2D

/-- The per-render-data fields SpriteRenderer._canBatch inspects: texture and
material (identity-compared, so modelled as identities), the owning
renderer's maskInteraction (SpriteMaskInteraction.None = 0) and maskLayer,
and the chunk.  The chunk carries the identity of its shared _meshBuffer, its
locally-numbered triangle index list _indices, and its vertex area _vEntry
(start and len, in float-element units). -/
structure Chunk2D where
  meshBuffer : Nat
  tempIndices : List Nat
  vEntryStart : Nat
  vEntryLen : Nat
deriving DecidableEq, Repr

/-- A RenderData2D as seen by _canBatch / _batchRenderElement. -/
structure RenderData2D where
  texture : Nat
  material : Nat
  maskInteraction : Nat
  maskLayer : Nat
  chunk : Chunk2D
deriving DecidableEq, Repr

/-- Shallow embedding of SpriteRenderer._canBatch: different mesh buffers
never batch; then differing mask interactions, or an active interaction with
differing mask layers, never batch; finally texture and material must be
identical. -/
def canBatch (a b : RenderData2D) : Bool :=
  if a.chunk.meshBuffer ≠ b.chunk.meshBuffer then false
  else if a.maskInteraction ≠ b.maskInteraction ∨
      (a.maskInteraction ≠ 0 ∧ a.maskLayer ≠ b.maskLayer) then false
  else decide (a.texture = b.texture) && decide (a.material = b.material)

/-- The mutable state of the shared MeshBuffer touched by
_batchRenderElement: the index buffer contents, _iLen and _vLen. -/
structure MeshBufferState where
  indices : Nat → Nat
  iLen : Nat
  vLen : Nat

/-- The SubMesh draw range (start, count). -/
structure SubMesh where
  start : Nat
  count : Nat
deriving DecidableEq, Repr

/-- The index-writing loop of _batchRenderElement: writes vsi + t for each
local index t at consecutive positions from pos. -/
def writeOffsetIndices (f : Nat → Nat) (pos vsi : Nat) : List Nat → (Nat → Nat)
  | [] => f
  | t :: ts => writeOffsetIndices (Function.update f pos (vsi + t)) (pos + 1) vsi ts

/-- Shallow embedding of SpriteRenderer._batchRenderElement with elementB
present: the indices, vEntry and temp index list come from elementB's chunk,
the accumulated SubMesh is elementA's chunk's and only its count grows. -/
def batchRenderElementPair (mb : MeshBufferState) (subMeshA : SubMesh)
    (bChunk : Chunk2D) : MeshBufferState × SubMesh :=
  let len := bChunk.tempIndices.length
  let vsi := bChunk.vEntryStart / 9
  (⟨writeOffsetIndices mb.indices mb.iLen vsi bChunk.tempIndices,
    mb.iLen + len, max mb.vLen (bChunk.vEntryStart + bChunk.vEntryLen)⟩,
   ⟨subMeshA.start, subMeshA.count + len⟩)

/-- Shallow embedding of SpriteRenderer._batchRenderElement with elementB
absent (start of a run): elementA's chunk supplies everything and its
SubMesh is set to the fresh range before registration with the mesh. -/
def batchRenderElementSingle (mb : MeshBufferState) (aChunk : Chunk2D) :
    MeshBufferState × SubMesh :=
  let len := aChunk.tempIndices.length
  let vsi := aChunk.vEntryStart / 9
  (⟨writeOffsetIndices mb.indices mb.iLen vsi aChunk.tempIndices,
    mb.iLen + len, max mb.vLen (aChunk.vEntryStart + aChunk.vEntryLen)⟩,
   ⟨mb.iLen, len⟩)

/-- Positions below the write cursor are untouched by the index loop. -/
theorem writeOffsetIndices_untouched (ts : List Nat) :
    ∀ (f : Nat → Nat) (pos vsi j : Nat), j < pos →
      writeOffsetIndices f pos vsi ts j = f j := by
  induction ts with
  | nil => intro f pos vsi j _; rfl
  | cons t ts ih =>
    intro f pos vsi j hj
    simp only [writeOffsetIndices]
    rw [ih (Function.update f pos (vsi + t)) (pos + 1) vsi j (by omega)]
    exact Function.update_noteq (by omega) _ f

/-- The index loop writes vsi + ts[i] at position pos + i. -/
theorem writeOffsetIndices_at (ts : List Nat) :
    ∀ (f : Nat → Nat) (pos vsi i : Nat), i < ts.length →
      writeOffsetIndices f pos vsi ts (pos + i) = vsi + ts.getD i 0 := by
  induction ts with
  | nil => intro f pos vsi i hi; simp at hi
  | cons t ts ih =>
    intro f pos vsi i hi
    match i with
    | 0 =>
      simp only [writeOffsetIndices, Nat.add_zero]
      rw [writeOffsetIndices_untouched ts _ (pos + 1) vsi pos (by omega)]
      simp
    | i' + 1 =>
      simp only [writeOffsetIndices, List.getD_cons_succ]
      have : pos + (i' + 1) = (pos + 1) + i' := by omega
      rw [this]
      exact ih _ (pos + 1) vsi i' (by simpa using hi)

end Engine2D

namespace Engine2D

/-- C3.  Two render datas with identical texture, identical material, equal
mask interaction, equal mask layer whenever the interaction is active, and
chunks sharing one mesh buffer always satisfy _canBatch; and folding the
second into the first (a single-element _batchRenderElement for the run head
followed by the two-element form) leaves the accumulated SubMesh counting the
sum of both index counts, with each of the second element's local indices
written at the running index cursor offset by the second element's own
vertex-area start in vertex units (vEntry.start / 9). -/
theorem spriteBatch_merge (a b : RenderData2D) (mb : MeshBufferState)
    (hmb : a.chunk.meshBuffer = b.chunk.meshBuffer)
    (hmi : a.maskInteraction = b.maskInteraction)
    (hml : a.maskInteraction ≠ 0 → a.maskLayer = b.maskLayer)
    (htex : a.texture = b.texture) (hmat : a.material = b.material) :
    canBatch a b = true ∧
    (batchRenderElementPair (batchRenderElementSingle mb a.chunk).1
        (batchRenderElementSingle mb a.chunk).2 b.chunk).2.count =
      a.chunk.tempIndices.length + b.chunk.tempIndices.length ∧
    (∀ i < b.chunk.tempIndices.length,
      (batchRenderElementPair (batchRenderElementSingle mb a.chunk).1
          (batchRenderElementSingle mb a.chunk).2 b.chunk).1.indices
        ((batchRenderElementSingle mb a.chunk).1.iLen + i) =
      b.chunk.vEntryStart / 9 + b.chunk.tempIndices.getD i 0) := by
  have hc1 : ¬ a.chunk.meshBuffer ≠ b.chunk.meshBuffer := by simp [hmb]
  have hc2 : ¬ (a.maskInteraction ≠ b.maskInteraction ∨
      (a.maskInteraction ≠ 0 ∧ a.maskLayer ≠ b.maskLayer)) := by
    push_neg
    exact ⟨hmi, hml⟩
  refine ⟨?_, ?_, ?_⟩
  · rw [canBatch, if_neg hc1, if_neg hc2]
    simp [htex, hmat]
  · simp [batchRenderElementPair, batchRenderElementSingle]
  · intro i hi
    simp only [batchRenderElementPair, batchRenderElementSingle]
    exact writeOffsetIndices_at b.chunk.tempIndices _ _ _ i hi

/-- Witness for C3: run head with 3 indices at vertex area start 18, second
element with 6 indices at vertex area start 45 (vertex unit 5) on mesh
buffer 5; after the fold the submesh counts 9 and the first appended index
lands at cursor 3 with value 5 + 0. -/
theorem spriteBatch_merge_witness :
    canBatch ⟨1, 2, 1, 4, ⟨5, [0, 1, 2], 18, 27⟩⟩
        ⟨1, 2, 1, 4, ⟨5, [0, 1, 2, 2, 1, 3], 45, 36⟩⟩ = true ∧
    (batchRenderElementPair
        (batchRenderElementSingle ⟨fun _ => 0, 0, 0⟩ ⟨5, [0, 1, 2], 18, 27⟩).1
        (batchRenderElementSingle ⟨fun _ => 0, 0, 0⟩ ⟨5, [0, 1, 2], 18, 27⟩).2
        ⟨5, [0, 1, 2, 2, 1, 3], 45, 36⟩).2.count = 9 ∧
    (batchRenderElementPair
        (batchRenderElementSingle ⟨fun _ => 0, 0, 0⟩ ⟨5, [0, 1, 2], 18, 27⟩).1
        (batchRenderElementSingle ⟨fun _ => 0, 0, 0⟩ ⟨5, [0, 1, 2], 18, 27⟩).2
        ⟨5, [0, 1, 2, 2, 1, 3], 45, 36⟩).1.indices 3 = 5 := by
  have h := spriteBatch_merge ⟨1, 2, 1, 4, ⟨5, [0, 1, 2], 18, 27⟩⟩
    ⟨1, 2, 1, 4, ⟨5, [0, 1, 2, 2, 1, 3], 45, 36⟩⟩ ⟨fun _ => 0, 0, 0⟩
    rfl rfl (fun _ => rfl) rfl rfl
  refine ⟨h.1, h.2.1, ?_⟩
  have h3 := h.2.2 0 (by norm_num)
  simpa [batchRenderElementSingle] using h3

end Engine2D

namespace Engine2D

/-- A render element as BatcherManager.batch sees it: its data's usage and
an identity (component, geometry and sort data are opaque to the fold). -/
structure RenderElement where
  usage : Nat
  eid : Nat
deriving DecidableEq, Repr

/-- The fold's merge test: preUsage === curElement.data.usage and the
accumulator's renderer accepts the pair; the renderer-kind predicate is the
abstract parameter cb, a function of the accumulator and current elements
(the source's preRenderer is the accumulator's own component). -/
def elementsMergeable (cb : RenderElement → RenderElement → Bool)
    (pre cur : RenderElement) : Bool :=
  decide (pre.usage = cur.usage) && cb pre cur

/-- The loop of BatcherManager.batch from the state where preElement = pre
and the remaining input is the list argument: merge keeps the accumulator,
otherwise the accumulator is flushed and the current element becomes the new
accumulator; at the end the accumulator is always flushed. -/
def batchAux (cb : RenderElement → RenderElement → Bool) :
    RenderElement → List RenderElement → List RenderElement
  | pre, [] => [pre]
  | pre, cur :: rest =>
    if elementsMergeable cb pre cur then batchAux cb pre rest
    else pre :: batchAux cb cur rest

/-- Shallow embedding of BatcherManager.batch: the sequence of elements
appended to batchedElements (an empty input appends nothing). -/
def batchElements (cb : RenderElement → RenderElement → Bool) :
    List RenderElement → List RenderElement
  | [] => []
  | e :: rest => batchAux cb e rest

/-- dropWhile never lengthens a list (termination measure for the run
decomposition). -/
theorem dropWhileLengthLe {α : Type} (p : α → Bool) (l : List α) :
    (l.dropWhile p).length ≤ l.length := by
  induction l with
  | nil => simp [List.dropWhile]
  | cons a l ih =>
    by_cases h : p a
    · rw [List.dropWhile_cons_of_pos h]
      simp only [List.length_cons]
      omega
    · rw [List.dropWhile_cons_of_neg h]

/-- Spec-level definition (from the claim's words, to be compared with the
embedding): the first elements of the maximal runs, where a run headed by e
extends over the consecutive elements mergeable with e. -/
def runHeadsSpec (cb : RenderElement → RenderElement → Bool) :
    List RenderElement → List RenderElement
  | [] => []
  | e :: rest =>
    e :: runHeadsSpec cb (rest.dropWhile (elementsMergeable cb e))
termination_by l => l.length
decreasing_by
  simp only [List.length_cons]
  have := dropWhileLengthLe (elementsMergeable cb e) rest
  omega

/-- Spec-level count of adjacent non-mergeable boundaries: the positions
where the element fails the merge test against the running accumulator. -/
def boundaryCount (cb : RenderElement → RenderElement → Bool) :
    RenderElement → List RenderElement → Nat
  | _, [] => 0
  | pre, cur :: rest =>
    if elementsMergeable cb pre cur then boundaryCount cb pre rest
    else 1 + boundaryCount cb cur rest

/-- The loop flushes exactly the run heads, in order. -/
theorem batchAux_eq_runHeads (cb : RenderElement → RenderElement → Bool)
    (rest : List RenderElement) :
    ∀ pre, batchAux cb pre rest =
      pre :: runHeadsSpec cb (rest.dropWhile (elementsMergeable cb pre)) := by
  induction rest with
  | nil => intro pre; rw [batchAux, List.dropWhile_nil, runHeadsSpec]
  | cons cur rest ih =>
    intro pre
    by_cases h : elementsMergeable cb pre cur
    · rw [batchAux, if_pos h, List.dropWhile_cons_of_pos h, ih pre]
    · rw [batchAux, if_neg h, List.dropWhile_cons_of_neg h, runHeadsSpec, ih cur]

/-- The loop emits one element per boundary plus the final flush. -/
theorem batchAux_length (cb : RenderElement → RenderElement → Bool)
    (rest : List RenderElement) :
    ∀ pre, (batchAux cb pre rest).length = 1 + boundaryCount cb pre rest := by
  induction rest with
  | nil => intro pre; rfl
  | cons cur rest ih =>
    intro pre
    by_cases h : elementsMergeable cb pre cur
    · rw [batchAux, if_pos h, boundaryCount, if_pos h, ih pre]
    · rw [batchAux, if_neg h, boundaryCount, if_neg h, List.length_cons, ih cur]
      omega

/-- C4.  For every non-empty input, BatcherManager.batch appends exactly the
first elements of the maximal accumulator-mergeable runs, in input order
(the final accumulator always flushed), so the output is non-empty and its
length is one plus the number of adjacent non-mergeable boundaries. -/
theorem batch_fold_structure (cb : RenderElement → RenderElement → Bool)
    (e : RenderElement) (rest : List RenderElement) :
    batchElements cb (e :: rest) = runHeadsSpec cb (e :: rest) ∧
    batchElements cb (e :: rest) ≠ [] ∧
    (batchElements cb (e :: rest)).length = 1 + boundaryCount cb e rest := by
  refine ⟨?_, ?_, batchAux_length cb rest e⟩
  · rw [batchElements, runHeadsSpec, batchAux_eq_runHeads cb rest e]
  · rw [batchElements, batchAux_eq_runHeads cb rest e]
    exact List.cons_ne_nil _ _

end Engine2D

namespace Engine2D

/-- The state of a ClearableObjectPool.  Objects are identified by creation
number (the pool never writes to an object after construction — get hands
back the stored object itself, so the model carries identities only);
elements is _elements in creation order, used is _usedElementCount, and
fresh counts constructor calls (the identity `new this._type()` would get). -/
structure ClearablePool where
  elements : List Nat
  used : Nat
  fresh : Nat
deriving DecidableEq, Repr

/-- The pool as constructed: no elements, cursor at 0. -/
def poolInit : ClearablePool := ⟨[], 0, 0⟩

/-- Shallow embedding of ClearableObjectPool.get: when the cursor has
consumed every element, construct a fresh object, push it and return it;
otherwise return the element at the cursor; either way advance the cursor. -/
def clearableGet (p : ClearablePool) : Nat × ClearablePool :=
  if p.elements.length = p.used then
    (p.fresh, ⟨p.elements ++ [p.fresh], p.used + 1, p.fresh + 1⟩)
  else
    (p.elements.getD p.used 0, ⟨p.elements, p.used + 1, p.fresh⟩)

/-- Shallow embedding of ClearableObjectPool.clear: only the cursor resets;
elements are kept and untouched. -/
def clearableClear (p : ClearablePool) : ClearablePool :=
  ⟨p.elements, 0, p.fresh⟩

/-- n successive get() calls: the returned objects in order and the final
pool state. -/
def getN : Nat → ClearablePool → List Nat × ClearablePool
  | 0, p => ([], p)
  | n + 1, p =>
    let r := clearableGet p
    let rs := getN n r.2
    (r.1 :: rs.1, rs.2)

/-- A client interaction with the pool. -/
inductive PoolOp where
  | get
  | clear
deriving DecidableEq, Repr

/-- Run a sequence of get/clear calls from a pool state. -/
def runPool (p : ClearablePool) : List PoolOp → ClearablePool
  | [] => p
  | PoolOp.get :: ops => runPool (clearableGet p).2 ops
  | PoolOp.clear :: ops => runPool (clearableClear p) ops

/-- The pool's structural invariant: the cursor never passes the end, the
stored objects are pairwise distinct, and every stored identity predates the
next constructor call. -/
def PoolInv (p : ClearablePool) : Prop :=
  p.used ≤ p.elements.length ∧ p.elements.Nodup ∧ ∀ x ∈ p.elements, x < p.fresh

/-- get preserves the invariant. -/
theorem poolInv_get {p : ClearablePool} (h : PoolInv p) :
    PoolInv (clearableGet p).2 := by
  obtain ⟨hu, hd, hf⟩ := h
  by_cases he : p.elements.length = p.used
  · have hstep : (clearableGet p).2 =
        ⟨p.elements ++ [p.fresh], p.used + 1, p.fresh + 1⟩ := by
      rw [clearableGet, if_pos he]
    rw [hstep]
    refine ⟨by simp; omega, ?_, ?_⟩
    · exact hd.append (List.nodup_singleton _)
        (by intro x hx hx'; simp at hx'; subst hx'; exact absurd rfl (hf _ hx).ne)
    · intro x hx
      rcases List.mem_append.mp hx with hx | hx
      · exact lt_trans (hf x hx) (Nat.lt_succ_self _)
      · simp at hx
        subst hx
        exact Nat.lt_succ_self _
  · have hstep : (clearableGet p).2 = ⟨p.elements, p.used + 1, p.fresh⟩ := by
      rw [clearableGet, if_neg he]
    rw [hstep]
    exact ⟨by simp; omega, hd, hf⟩

/-- clear preserves the invariant. -/
theorem poolInv_clear {p : ClearablePool} (h : PoolInv p) :
    PoolInv (clearableClear p) :=
  ⟨Nat.zero_le _, h.2.1, h.2.2⟩

/-- Every reachable pool state satisfies the invariant. -/
theorem poolInv_runPool (ops : List PoolOp) :
    ∀ p, PoolInv p → PoolInv (runPool p ops) := by
  induction ops with
  | nil => intro p h; exact h
  | cons op ops ih =>
    intro p h
    cases op with
    | get => exact ih _ (poolInv_get h)
    | clear => exact ih _ (poolInv_clear h)

/-- While the cursor stays within the stored elements, get() walks them in
storage order and neither the elements nor the constructor count change. -/
theorem getN_reuse (k : Nat) :
    ∀ p : ClearablePool, p.used + k ≤ p.elements.length →
      getN k p = ((p.elements.drop p.used).take k,
        ⟨p.elements, p.used + k, p.fresh⟩) := by
  induction k with
  | zero => intro p _; simp [getN]
  | succ k ih =>
    intro p hk
    have hlt : p.used < p.elements.length := by omega
    have hbr : ¬ p.elements.length = p.used := by omega
    have hstep : clearableGet p =
        (p.elements.getD p.used 0, ⟨p.elements, p.used + 1, p.fresh⟩) := by
      rw [clearableGet, if_neg hbr]
    rw [getN, hstep]
    have ih' := ih ⟨p.elements, p.used + 1, p.fresh⟩ (by simpa using by omega)
    rw [ih']
    have hdrop : p.elements.drop p.used =
        p.elements[p.used] :: p.elements.drop (p.used + 1) :=
      List.drop_eq_getElem_cons hlt
    have hget : p.elements.getD p.used 0 = p.elements[p.used] := by
      simp [List.getD_eq_getElem?_getD, List.getElem?_eq_getElem hlt]
    have harith : p.used + 1 + k = p.used + (k + 1) := by omega
    rw [hget, hdrop, List.take_succ_cons, harith]

/-- Once the cursor has consumed every element, each further get()
constructs a new object, pushes it, and returns it. -/
theorem getN_grow (k : Nat) :
    ∀ p : ClearablePool, p.elements.length = p.used →
      getN k p = (List.range' p.fresh k,
        ⟨p.elements ++ List.range' p.fresh k, p.used + k, p.fresh + k⟩) := by
  induction k with
  | zero => intro p _; simp [getN]
  | succ k ih =>
    intro p hp
    have hstep : clearableGet p =
        (p.fresh, ⟨p.elements ++ [p.fresh], p.used + 1, p.fresh + 1⟩) := by
      rw [clearableGet, if_pos hp]
    rw [getN, hstep]
    have ih' := ih ⟨p.elements ++ [p.fresh], p.used + 1, p.fresh + 1⟩
      (by simp [hp])
    rw [ih']
    rw [List.range'_succ]
    simp
    omega

/-- Splitting a run of gets. -/
theorem getN_add (m k : Nat) :
    ∀ p : ClearablePool,
      getN (m + k) p =
        ((getN m p).1 ++ (getN k (getN m p).2).1, (getN k (getN m p).2).2) := by
  induction m with
  | zero => intro p; simp [getN]
  | succ m ih =>
    intro p
    have : m + 1 + k = (m + k) + 1 := by omega
    rw [this, getN, getN, ih (clearableGet p).2]
    simp

end Engine2D

namespace Engine2D

/-- The pool as constructed satisfies the invariant. -/
theorem poolInv_init : PoolInv poolInit :=
  ⟨Nat.le_refl 0, List.nodup_nil, by intro x hx; simp [poolInit] at hx⟩

/-- From any invariant state, a run of get() calls returns pairwise-distinct
objects. -/
theorem getN_nodup (n : Nat) (p : ClearablePool) (h : PoolInv p) :
    (getN n p).1.Nodup := by
  by_cases hn : p.used + n ≤ p.elements.length
  · rw [getN_reuse n p hn]
    exact h.2.1.sublist ((List.take_sublist _ _).trans (List.drop_sublist _ _))
  · have hu : p.used ≤ p.elements.length := h.1
    have hre := getN_reuse (p.elements.length - p.used) p (by omega)
    have hp1 : (ClearablePool.mk p.elements
        (p.used + (p.elements.length - p.used)) p.fresh).elements.length =
        (ClearablePool.mk p.elements
          (p.used + (p.elements.length - p.used)) p.fresh).used := by
      show p.elements.length = p.used + (p.elements.length - p.used)
      omega
    have hgrow := getN_grow (n - (p.elements.length - p.used))
      (ClearablePool.mk p.elements
        (p.used + (p.elements.length - p.used)) p.fresh) hp1
    have hsplit : n = (p.elements.length - p.used) +
        (n - (p.elements.length - p.used)) := by omega
    rw [hsplit, getN_add, hre, hgrow]
    refine List.Nodup.append
      (h.2.1.sublist ((List.take_sublist _ _).trans (List.drop_sublist _ _)))
      (List.nodup_range' _ _) ?_
    intro x hx hx'
    have hx1 : x ∈ p.elements := List.drop_subset _ _ (List.take_subset _ _ hx)
    have hlt := h.2.2 x hx1
    have hge2 : p.fresh ≤ x := (List.mem_range'_1.mp hx').1
    omega

/-- C10.  For every pool state s reached by a sequence of get/clear calls
on a freshly constructed ClearableObjectPool: any run of n get() calls
returns pairwise-distinct objects, both from s and from s after a clear();
and after clear(), k ≤ |elements| successive get() calls return exactly the
first k previously created objects, in creation order, with the stored
elements and the constructor counter unchanged (no new allocation, and no
object field is touched — get hands back the stored object itself). -/
theorem clearableObjectPool_reuse (ops : List PoolOp) (n k : Nat)
    (s : ClearablePool) (hs : s = runPool poolInit ops)
    (hk : k ≤ s.elements.length) :
    (getN n s).1.Nodup ∧
    (getN n (clearableClear s)).1.Nodup ∧
    getN k (clearableClear s) =
      (s.elements.take k, ⟨s.elements, k, s.fresh⟩) := by
  have hinv : PoolInv s := by
    rw [hs]
    exact poolInv_runPool ops poolInit poolInv_init
  refine ⟨getN_nodup n s hinv, getN_nodup n _ (poolInv_clear hinv), ?_⟩
  have h := getN_reuse k (clearableClear s) (by simpa [clearableClear] using hk)
  simpa [clearableClear] using h

/-- Witness for C10: three gets create objects 0, 1, 2; after a clear, two
gets hand back 0 then 1 with the element store and constructor counter
untouched. -/
theorem clearableObjectPool_reuse_witness :
    getN 2 (clearableClear (runPool poolInit
        [PoolOp.get, PoolOp.get, PoolOp.get])) =
      ([0, 1], ⟨[0, 1, 2], 2, 3⟩) := by
  have h := clearableObjectPool_reuse [PoolOp.get, PoolOp.get, PoolOp.get] 2 2
    (runPool poolInit [PoolOp.get, PoolOp.get, PoolOp.get]) rfl (by decide)
  rw [h.2.2]
  rfl

end Engine2D
